import Mathlib

/-!
Verification of the sspi bit-banged SPI master (src/src/sspi.h, src/src/sspi.c).

The three injected GPIO callbacks (write_sck, write_mosi, read_miso) and the
half-period delay are modelled by an explicit event trace: every callback
invocation appends one event, in program order.  The MISO input line is
modelled as a function from the number of elapsed delay (half-period) calls to
the line level, exactly the sampling model of the repository's test harness
(test/main.c advances the emulated line once per delay call).  Pin levels are
Bool: false is SSPI_PIN_LOW, true is SSPI_PIN_HIGH.  Bytes are Nat reduced
mod 256 where the C uint8_t arithmetic wraps.
-/

/-- Callback-invocation events emitted by the engine: a write_sck call with the
level driven, a write_mosi call with the level driven, a read_miso call with
the level observed, and a delay (wait half period) call. -/
inductive Ev where
  | sck (b : Bool)
  | mosi (b : Bool)
  | miso (b : Bool)
  | delay
deriving DecidableEq, Repr

/-- Bus configuration: the data fields of struct sspi (src/src/sspi.h).
word_size is a C int, hence Int. -/
structure Sspi where
  cpol_1 : Bool
  cpha_1 : Bool
  lsb : Bool
  word_size : Int
deriving DecidableEq, Repr

/-- sspi_bit_read_write (src/src/sspi.h lines 87-122): one clock cycle.
Input env is the MISO line level as a function of the elapsed delay count,
d is the number of delay calls that happened before this call.  Returns the
read bit, the callback trace, and the new delay count.
C code: sck_lead = cpol_1 ? LOW : HIGH; sck_trail = cpol_1 ? HIGH : LOW;
cpha_1 ? (delay; sck lead; mosi; delay; sck trail; read)
       : (mosi; delay; sck lead; read; delay; sck trail). -/
def sspi_bit_read_write (bus : Sspi) (env : Nat → Bool) (d : Nat) (write_bit : Bool) :
    Bool × List Ev × Nat :=
  let sck_lead : Bool := if bus.cpol_1 then false else true
  let sck_trail : Bool := if bus.cpol_1 then true else false
  if bus.cpha_1 then
    let read_bit := env (d + 2)
    (read_bit,
      [Ev.delay, Ev.sck sck_lead, Ev.mosi write_bit, Ev.delay, Ev.sck sck_trail,
        Ev.miso read_bit],
      d + 2)
  else
    let read_bit := env (d + 1)
    (read_bit,
      [Ev.mosi write_bit, Ev.delay, Ev.sck sck_lead, Ev.miso read_bit, Ev.delay,
        Ev.sck sck_trail],
      d + 2)

/-- Word-size normalization of sspi_byte_read_write (src/src/sspi.c line 30):
(bus->word_size && bus->word_size < 8) ? bus->word_size : 8. -/
def norm_word_size (ws : Int) : Int :=
  if ws ≠ 0 ∧ ws < 8 then ws else 8

/-- Loop body of sspi_byte_read_write (src/src/sspi.c lines 36-53), recursion
on the number of remaining bits.  Each iteration clocks one bit whose value is
the truthiness of wb &&& mask_tx, ORs mask_rx into the accumulator when the
read bit is high, and shifts both registers (direction per bus.lsb, left
shifts wrapping at the uint8_t width) after every iteration except the last. -/
def sspi_bits_loop (bus : Sspi) (env : Nat → Bool) (mask_tx mask_rx : Nat) :
    Nat → Nat → Nat → Nat → Nat × List Ev × Nat
  | 0, _wb, rb, d => (rb, [], d)
  | n + 1, wb, rb, d =>
    let step := sspi_bit_read_write bus env d (decide (wb &&& mask_tx ≠ 0))
    let rb1 := rb ||| (if step.1 then mask_rx else 0)
    if n = 0 then
      (rb1, step.2.1, step.2.2)
    else
      let wb1 := if bus.lsb then wb >>> 1 else (wb <<< 1) % 256
      let rb2 := if bus.lsb then rb1 >>> 1 else (rb1 <<< 1) % 256
      let rest := sspi_bits_loop bus env mask_tx mask_rx n wb1 rb2 step.2.2
      (rest.1, step.2.1 ++ rest.2.1, rest.2.2)

/-- sspi_byte_read_write (src/src/sspi.c lines 28-56): normalize the word
size, compute the masks (word_msb_mask = 1 << (word_size - 1) truncated to
uint8_t; mask_tx = lsb ? 0x01 : word_msb_mask; mask_rx = lsb ? word_msb_mask
: 0x01), then run the bit loop word_size times starting from read_byte 0. -/
def sspi_byte_read_write (bus : Sspi) (env : Nat → Bool) (d : Nat) (write_byte : Nat) :
    Nat × List Ev × Nat :=
  let word_size := norm_word_size bus.word_size
  let word_msb_mask : Nat := (1 <<< (word_size - 1).toNat) % 256
  let mask_tx := if bus.lsb then 1 else word_msb_mask
  let mask_rx := if bus.lsb then word_msb_mask else 1
  sspi_bits_loop bus env mask_tx mask_rx word_size.toNat (write_byte % 256) 0 d

/-- Byte transmitted at offset i: the write-buffer byte when the buffer is
present, 0x00 when it is NULL (src/src/sspi.c line 65:
write_buff ? *write_buff++ : 0x00). -/
def txByte (write_buff : Option (Nat → Nat)) (i : Nat) : Nat :=
  match write_buff with
  | none => 0
  | some f => f i

/-- Loop of sspi_read_write (src/src/sspi.c lines 58-69): iterate over the
remaining size; each iteration reads the next write-buffer byte (0x00 when the
write buffer is NULL), clocks one word, and collects the received byte.  The
write buffer is modelled as a function from byte offset to byte value, i is
the current offset. -/
def sspi_transfer_loop (bus : Sspi) (env : Nat → Bool) (write_buff : Option (Nat → Nat)) :
    Nat → Nat → Nat → List Nat × List Ev × Nat
  | _, 0, d => ([], [], d)
  | i, n + 1, d =>
    let step := sspi_byte_read_write bus env d (txByte write_buff i)
    let rest := sspi_transfer_loop bus env write_buff (i + 1) n step.2.2
    (step.1 :: rest.1, step.2.1 ++ rest.2.1, rest.2.2)

/-- sspi_read_write (src/src/sspi.c lines 58-69): run the transfer loop; the
received bytes are stored into the read buffer only when it is present
(read_buff non NULL), otherwise they are discarded; the callback activity does
not depend on the read buffer. -/
def sspi_read_write (bus : Sspi) (env : Nat → Bool) (read_present : Bool)
    (write_buff : Option (Nat → Nat)) (size : Nat) (d : Nat) :
    Option (List Nat) × List Ev × Nat :=
  let run := sspi_transfer_loop bus env write_buff 0 size d
  (if read_present then some run.1 else none, run.2.1, run.2.2)

/-- sspi_reset (src/src/sspi.h lines 80-84): write_sck(cpol_1 ? HIGH : LOW);
write_mosi(LOW).  It makes no read_miso and no delay call. -/
def sspi_reset (bus : Sspi) : List Ev :=
  [Ev.sck (if bus.cpol_1 then true else false), Ev.mosi false]

/-- Conceptual bus pin state: last driven SCK and MOSI levels. -/
structure PinState where
  sck : Bool
  mosi : Bool
deriving DecidableEq, Repr

/-- Effect of one callback event on the driven pin state. -/
def applyEv (s : PinState) : Ev → PinState
  | Ev.sck b => { s with sck := b }
  | Ev.mosi b => { s with mosi := b }
  | _ => s

/-- Pin state after replaying a trace. -/
def runTrace (s : PinState) (tr : List Ev) : PinState :=
  tr.foldl applyEv s

/-- Recognizer for write_sck events. -/
def isSck : Ev → Bool
  | Ev.sck _ => true
  | _ => false

/-- Recognizer for write_mosi events. -/
def isMosi : Ev → Bool
  | Ev.mosi _ => true
  | _ => false

/-- Recognizer for read_miso events. -/
def isMiso : Ev → Bool
  | Ev.miso _ => true
  | _ => false

/-- Recognizer for delay events. -/
def isDelay : Ev → Bool
  | Ev.delay => true
  | _ => false

/-- Output (pin-driving) events of a trace: the write_sck and write_mosi
calls, in order. -/
def outputEvents (tr : List Ev) : List Ev :=
  tr.filter fun e => isSck e || isMosi e

/-- Specification-side description of the bit-engine callback sequence
(spec section 4.1): lead_level is the opposite of the idle level (cpol=false
gives HIGH, cpol=true gives LOW) and trail_level is the idle level; with
cpha=false the sequence is data-out, delay, clock to lead, sample, delay,
clock to trail; with cpha=true it is delay, clock to lead and data-out,
delay, clock to trail, sample. -/
def spec_bit_trace (bus : Sspi) (write_bit read_bit : Bool) : List Ev :=
  let lead_level : Bool := if bus.cpol_1 then false else true
  let trail_level : Bool := if bus.cpol_1 then true else false
  if bus.cpha_1 then
    [Ev.delay, Ev.sck lead_level, Ev.mosi write_bit, Ev.delay, Ev.sck trail_level,
      Ev.miso read_bit]
  else
    [Ev.mosi write_bit, Ev.delay, Ev.sck lead_level, Ev.miso read_bit, Ev.delay,
      Ev.sck trail_level]

/-- MISO waveform of the 8-bit tests (test/main.c), one level per half
period, decoded from the sample string where underscore and backslash are
LOW and caret and slash are HIGH. -/
def misoWave : List Bool :=
  [false, false, false, true, true, true, true, true, true, true, true,
    false, false, false, false, false, false, true, true, false, false,
    true, true, false, false, false, false, true, true, false, false,
    true, true]

/-- Line level seen by read_miso after d delay calls, given the per-half-period
level list; the line idles HIGH before the first sample and after the list is
exhausted (the harness's pull-up default). -/
def lineEnv (l : List Bool) : Nat → Bool
  | 0 => true
  | d + 1 => l.getD d true

/-- C1: for every bus configuration, line environment, delay count and write
bit, sspi_bit_read_write returns the level sampled at its mode's sample point
(after the first delay when cpha=false, after the second when cpha=true),
emits exactly the callback sequence of spec section 4.1 with lead_level the
opposite of the idle level and trail_level the idle level, and consumes
exactly two half-period delays. -/
theorem sspi_bit_read_write_spec (bus : Sspi) (env : Nat → Bool) (d : Nat)
    (write_bit : Bool) :
    sspi_bit_read_write bus env d write_bit =
      (env (d + (if bus.cpha_1 then 2 else 1)),
        spec_bit_trace bus write_bit (env (d + (if bus.cpha_1 then 2 else 1))),
        d + 2) := by
  cases h : bus.cpha_1 <;>
    simp [sspi_bit_read_write, spec_bit_trace, h]

/-- C2: with MSB-first order and word size 8, transferring bytes 0x87 then
0x5A against the test waveform yields read bytes 0x78, 0xA5 in each of the
four (cpol, cpha) modes — the read data is identical across modes 0, 1, 2
and 3 — and the data-out (MOSI) event sequence is also the same in all four
modes, only the clock waveform differing.  The transfer starts after one
settling half period, as in the repository tests. -/
theorem sspi_modes_read_same_data :
    ((sspi_read_write ⟨false, false, false, 8⟩ (lineEnv misoWave) true
        (some fun i => List.getD [135, 90] i 0) 2 1).1 = some [120, 165] ∧
      (sspi_read_write ⟨false, true, false, 8⟩ (lineEnv misoWave) true
        (some fun i => List.getD [135, 90] i 0) 2 1).1 = some [120, 165] ∧
      (sspi_read_write ⟨true, false, false, 8⟩ (lineEnv misoWave) true
        (some fun i => List.getD [135, 90] i 0) 2 1).1 = some [120, 165] ∧
      (sspi_read_write ⟨true, true, false, 8⟩ (lineEnv misoWave) true
        (some fun i => List.getD [135, 90] i 0) 2 1).1 = some [120, 165]) ∧
    (∀ pol pha : Bool,
      (sspi_read_write ⟨pol, pha, false, 8⟩ (lineEnv misoWave) true
          (some fun i => List.getD [135, 90] i 0) 2 1).2.1.filter isMosi =
        (sspi_read_write ⟨false, false, false, 8⟩ (lineEnv misoWave) true
          (some fun i => List.getD [135, 90] i 0) 2 1).2.1.filter isMosi) := by
  exact ⟨⟨by decide, by decide, by decide, by decide⟩, by decide⟩

/-- Helper: for non-negative word size the normalization lands in [1, 8]. -/
theorem norm_word_size_pos_bounds (ws : Int) (h : 0 ≤ ws) :
    1 ≤ norm_word_size ws ∧ norm_word_size ws ≤ 8 := by
  unfold norm_word_size
  by_cases h0 : ws ≠ 0 ∧ ws < 8
  · rw [if_pos h0]
    omega
  · rw [if_neg h0]
    omega

/-- Helper: negative word sizes pass the C check unchanged. -/
theorem norm_word_size_neg (ws : Int) (h : ws < 0) : norm_word_size ws = ws := by
  unfold norm_word_size
  rw [if_pos (show ws ≠ 0 ∧ ws < 8 by omega)]

/-- Helper: a word size already in [1, 8] normalizes to itself. -/
theorem norm_word_size_of_range (w : Nat) (h1 : 1 ≤ w) (h8 : w ≤ 8) :
    norm_word_size (w : Int) = (w : Int) := by
  unfold norm_word_size
  by_cases h0 : (w : Int) ≠ 0 ∧ (w : Int) < 8
  · rw [if_pos h0]
  · rw [if_neg h0]
    omega

/-- Helper: the toNat of a normalized in-range word size. -/
theorem norm_word_size_toNat_of_range (w : Nat) (h1 : 1 ≤ w) (h8 : w ≤ 8) :
    (norm_word_size (w : Int)).toNat = w := by
  rw [norm_word_size_of_range w h1 h8]
  exact Int.toNat_natCast w

/-- Helper: the uint8_t mask 1 << (word_size - 1) computed by the code equals
the power 2 ^ (word_size - 1) over the normalized word size. -/
theorem norm_mask_eq (ws : Int) :
    (1 <<< (norm_word_size ws - 1).toNat) % 256 =
      2 ^ ((norm_word_size ws).toNat - 1) := by
  rcases lt_or_le ws 0 with hneg | hpos
  · rw [norm_word_size_neg ws hneg]
    have h1 : (ws - 1).toNat = 0 := by omega
    have h2 : ws.toNat = 0 := by omega
    rw [h1, h2]
    rfl
  · obtain ⟨hl, hu⟩ := norm_word_size_pos_bounds ws hpos
    have hk : (norm_word_size ws - 1).toNat = (norm_word_size ws).toNat - 1 := by omega
    rw [hk, Nat.shiftLeft_eq, one_mul]
    have hk7 : (norm_word_size ws).toNat - 1 ≤ 7 := by omega
    have hlt : (2 : Nat) ^ ((norm_word_size ws).toNat - 1) < 256 :=
      lt_of_le_of_lt (Nat.pow_le_pow_right (by norm_num) hk7) (by norm_num)
    exact Nat.mod_eq_of_lt hlt

/-- Helper: sspi_byte_read_write written with its masks in power form. -/
theorem sspi_byte_read_write_eq_loop (bus : Sspi) (env : Nat → Bool) (d wb : Nat) :
    sspi_byte_read_write bus env d wb =
      sspi_bits_loop bus env
        (if bus.lsb then 1 else 2 ^ ((norm_word_size bus.word_size).toNat - 1))
        (if bus.lsb then 2 ^ ((norm_word_size bus.word_size).toNat - 1) else 1)
        (norm_word_size bus.word_size).toNat (wb % 256) 0 d := by
  simp only [sspi_byte_read_write]
  rw [norm_mask_eq]

/-- C10: under the precondition word_size at least 0, the normalized word size
lies in [1, 8], so the shift amount word_size - 1 of the mask computation lies
in [0, 7]; for negative word_size the C check (word_size && word_size < 8)
keeps the negative value instead of normalizing it to 8 and the shift amount
is negative, so non-negative word_size is a configuration precondition. -/
theorem sspi_word_size_precondition (ws : Int) :
    (0 ≤ ws →
      1 ≤ norm_word_size ws ∧ norm_word_size ws ≤ 8 ∧
        0 ≤ norm_word_size ws - 1 ∧ norm_word_size ws - 1 ≤ 7) ∧
    (ws < 0 → norm_word_size ws = ws ∧ norm_word_size ws - 1 < 0) := by
  constructor
  · intro h
    unfold norm_word_size
    by_cases h0 : ws ≠ 0 ∧ ws < 8
    · rw [if_pos h0]
      omega
    · rw [if_neg h0]
      omega
  · intro h
    unfold norm_word_size
    rw [if_pos (show ws ≠ 0 ∧ ws < 8 by omega)]
    omega

/-- Witness for C10 at word sizes 3 and -2. -/
theorem sspi_word_size_precondition_witness :
    (1 ≤ norm_word_size 3 ∧ norm_word_size 3 ≤ 8 ∧
      0 ≤ norm_word_size 3 - 1 ∧ norm_word_size 3 - 1 ≤ 7) ∧
    (norm_word_size (-2) = -2 ∧ norm_word_size (-2) - 1 < 0) :=
  ⟨(sspi_word_size_precondition 3).1 (by decide),
    (sspi_word_size_precondition (-2)).2 (by decide)⟩

/-- Replaying a concatenated trace is sequential composition. -/
theorem runTrace_append (s : PinState) (a b : List Ev) :
    runTrace s (a ++ b) = runTrace (runTrace s a) b := by
  simp [runTrace, List.foldl_append]

/-- From any starting pin state, one sspi_reset drives SCK to the idle level
and MOSI low. -/
theorem runTrace_reset (bus : Sspi) (s : PinState) :
    runTrace s (sspi_reset bus) = ⟨bus.cpol_1, false⟩ := by
  cases h : bus.cpol_1 <;>
    simp [runTrace, sspi_reset, applyEv, h]

/-- From any starting pin state, any positive number of consecutive
sspi_reset calls drives SCK to the idle level and MOSI low. -/
theorem runTrace_reset_replicate (bus : Sspi) :
    ∀ (n : Nat) (s : PinState),
      runTrace s (List.flatten (List.replicate (n + 1) (sspi_reset bus))) =
        ⟨bus.cpol_1, false⟩ := by
  intro n
  induction n with
  | zero =>
    intro s
    simp [runTrace_reset]
  | succ k ih =>
    intro s
    have hsplit :
        List.flatten (List.replicate (k + 1 + 1) (sspi_reset bus)) =
          sspi_reset bus ++ List.flatten (List.replicate (k + 1) (sspi_reset bus)) := by
      simp [List.replicate_succ]
    rw [hsplit, runTrace_append]
    exact ih (runTrace s (sspi_reset bus))

/-- C8: sspi_reset emits exactly one write_sck call driving the idle level
(HIGH when cpol is true, LOW when cpol is false) followed by one write_mosi
call driving LOW, makes no read_miso call and no delay call, and is
idempotent: any number of consecutive calls leaves the driven pin state
exactly as one call does, clock at idle level and data-out LOW. -/
theorem sspi_reset_idempotent (bus : Sspi) (s : PinState) (n : Nat) :
    sspi_reset bus = [Ev.sck bus.cpol_1, Ev.mosi false] ∧
    (sspi_reset bus).countP isMiso = 0 ∧
    (sspi_reset bus).countP isDelay = 0 ∧
    runTrace s (List.flatten (List.replicate (n + 1) (sspi_reset bus))) =
      runTrace s (sspi_reset bus) ∧
    runTrace s (sspi_reset bus) = ⟨bus.cpol_1, false⟩ := by
  refine ⟨?_, ?_, ?_, ?_, runTrace_reset bus s⟩
  · cases h : bus.cpol_1 <;> simp [sspi_reset, h]
  · simp [sspi_reset, List.countP, List.countP.go, isMiso]
  · simp [sspi_reset, List.countP, List.countP.go, isDelay]
  · rw [runTrace_reset_replicate bus n s, runTrace_reset bus s]

/-- Helper: the bit engine reads only cpol_1 and cpha_1 from the bus. -/
theorem sspi_bit_read_write_congr (bus bus' : Sspi) (h1 : bus.cpol_1 = bus'.cpol_1)
    (h2 : bus.cpha_1 = bus'.cpha_1) (env : Nat → Bool) (d : Nat) (w : Bool) :
    sspi_bit_read_write bus env d w = sspi_bit_read_write bus' env d w := by
  unfold sspi_bit_read_write
  rw [h1, h2]

/-- Helper: the bit loop reads only cpol_1, cpha_1 and lsb from the bus. -/
theorem sspi_bits_loop_congr (bus bus' : Sspi) (h1 : bus.cpol_1 = bus'.cpol_1)
    (h2 : bus.cpha_1 = bus'.cpha_1) (h3 : bus.lsb = bus'.lsb)
    (env : Nat → Bool) (mtx mrx : Nat) :
    ∀ (n wb rb d : Nat),
      sspi_bits_loop bus env mtx mrx n wb rb d =
        sspi_bits_loop bus' env mtx mrx n wb rb d := by
  intro n
  induction n with
  | zero =>
    intro wb rb d
    rfl
  | succ k ih =>
    intro wb rb d
    simp only [sspi_bits_loop,
      sspi_bit_read_write_congr bus bus' h1 h2 env d (decide (wb &&& mtx ≠ 0)), h3]
    by_cases hk : k = 0
    · rw [if_pos hk, if_pos hk]
    · rw [if_neg hk, if_neg hk, ih]

/-- C9: for every bus configuration, line environment, delay count and write
byte, sspi_byte_read_write with word_size 0 behaves identically to word_size
8 (same return value, same callback trace), and with any word_size at least 8
it also behaves identically to word_size 8; the normalization is not an
error. -/
theorem sspi_word_size_normalization (bus : Sspi) (env : Nat → Bool) (d wb : Nat)
    (ws : Int) (h : 8 ≤ ws) :
    sspi_byte_read_write { bus with word_size := 0 } env d wb =
      sspi_byte_read_write { bus with word_size := 8 } env d wb ∧
    sspi_byte_read_write { bus with word_size := ws } env d wb =
      sspi_byte_read_write { bus with word_size := 8 } env d wb := by
  have h0 : norm_word_size 0 = 8 := by
    unfold norm_word_size
    simp
  have hws : norm_word_size ws = 8 := by
    unfold norm_word_size
    rw [if_neg (by omega)]
  have h88 : norm_word_size 8 = 8 := by decide
  constructor
  · simp only [sspi_byte_read_write, h0, h88]
    exact sspi_bits_loop_congr { bus with word_size := 0 } { bus with word_size := 8 }
      rfl rfl rfl env _ _ _ _ _ _
  · simp only [sspi_byte_read_write, hws, h88]
    exact sspi_bits_loop_congr { bus with word_size := ws } { bus with word_size := 8 }
      rfl rfl rfl env _ _ _ _ _ _

/-- Witness for C9 on a concrete bus at word sizes 0, 9 and 8. -/
theorem sspi_word_size_normalization_witness :
    sspi_byte_read_write ⟨false, false, false, 0⟩ (fun _ => true) 0 135 =
      sspi_byte_read_write ⟨false, false, false, 8⟩ (fun _ => true) 0 135 ∧
    sspi_byte_read_write ⟨false, false, false, 9⟩ (fun _ => true) 0 135 =
      sspi_byte_read_write ⟨false, false, false, 8⟩ (fun _ => true) 0 135 :=
  sspi_word_size_normalization ⟨false, false, false, 0⟩ (fun _ => true) 0 135 9
    (by decide)

/-- Helper: unfolding of the bit loop at fuel 0. -/
theorem sspi_bits_loop_zero (bus : Sspi) (env : Nat → Bool) (mtx mrx wb rb d : Nat) :
    sspi_bits_loop bus env mtx mrx 0 wb rb d = (rb, [], d) := rfl

/-- Helper: unfolding of the bit loop at fuel 1 (the last bit: no shift). -/
theorem sspi_bits_loop_one (bus : Sspi) (env : Nat → Bool) (mtx mrx wb rb d : Nat) :
    sspi_bits_loop bus env mtx mrx 1 wb rb d =
      (rb ||| (if (sspi_bit_read_write bus env d (decide (wb &&& mtx ≠ 0))).1
          then mrx else 0),
        (sspi_bit_read_write bus env d (decide (wb &&& mtx ≠ 0))).2.1,
        (sspi_bit_read_write bus env d (decide (wb &&& mtx ≠ 0))).2.2) := rfl

/-- Helper: unfolding of the bit loop at fuel at least 2 (shift after the bit). -/
theorem sspi_bits_loop_succ_succ (bus : Sspi) (env : Nat → Bool)
    (mtx mrx k wb rb d : Nat) :
    sspi_bits_loop bus env mtx mrx (k + 2) wb rb d =
      (let step := sspi_bit_read_write bus env d (decide (wb &&& mtx ≠ 0))
       let rb1 := rb ||| (if step.1 then mrx else 0)
       let wb1 := if bus.lsb then wb >>> 1 else (wb <<< 1) % 256
       let rb2 := if bus.lsb then rb1 >>> 1 else (rb1 <<< 1) % 256
       let rest := sspi_bits_loop bus env mtx mrx (k + 1) wb1 rb2 step.2.2
       (rest.1, step.2.1 ++ rest.2.1, rest.2.2)) := rfl

/-- Helper: one bit consumes two delays and its trace holds two delay events,
two write_sck events, one write_mosi event and one read_miso event. -/
theorem sspi_bit_read_write_counts (bus : Sspi) (env : Nat → Bool) (d : Nat)
    (w : Bool) :
    (sspi_bit_read_write bus env d w).2.2 = d + 2 ∧
    (sspi_bit_read_write bus env d w).2.1.countP isDelay = 2 ∧
    (sspi_bit_read_write bus env d w).2.1.countP isSck = 2 ∧
    (sspi_bit_read_write bus env d w).2.1.countP isMosi = 1 ∧
    (sspi_bit_read_write bus env d w).2.1.countP isMiso = 1 := by
  cases h : bus.cpha_1 <;>
    simp [sspi_bit_read_write, h, List.countP_cons, isDelay, isSck, isMosi, isMiso]

/-- Helper: the bit loop at fuel n consumes 2n delays and its trace holds 2n
delay events, 2n write_sck events, n write_mosi events and n read_miso
events. -/
theorem sspi_bits_loop_counts (bus : Sspi) (env : Nat → Bool) (mtx mrx : Nat) :
    ∀ (n wb rb d : Nat),
      (sspi_bits_loop bus env mtx mrx n wb rb d).2.2 = d + 2 * n ∧
      (sspi_bits_loop bus env mtx mrx n wb rb d).2.1.countP isDelay = 2 * n ∧
      (sspi_bits_loop bus env mtx mrx n wb rb d).2.1.countP isSck = 2 * n ∧
      (sspi_bits_loop bus env mtx mrx n wb rb d).2.1.countP isMosi = n ∧
      (sspi_bits_loop bus env mtx mrx n wb rb d).2.1.countP isMiso = n := by
  intro n
  induction n with
  | zero =>
    intro wb rb d
    simp [sspi_bits_loop_zero]
  | succ k ih =>
    intro wb rb d
    cases k with
    | zero =>
      obtain ⟨hd, h1, h2, h3, h4⟩ :=
        sspi_bit_read_write_counts bus env d (decide (wb &&& mtx ≠ 0))
      rw [sspi_bits_loop_one]
      exact ⟨hd, h1, h2, h3, h4⟩
    | succ m =>
      obtain ⟨hd, h1, h2, h3, h4⟩ :=
        sspi_bit_read_write_counts bus env d (decide (wb &&& mtx ≠ 0))
      rw [sspi_bits_loop_succ_succ]
      simp only [List.countP_append, hd]
      obtain ⟨gd, g1, g2, g3, g4⟩ := ih
        (if bus.lsb then wb >>> 1 else (wb <<< 1) % 256)
        (if bus.lsb
          then (rb ||| (if (sspi_bit_read_write bus env d
            (decide (wb &&& mtx ≠ 0))).1 then mrx else 0)) >>> 1
          else ((rb ||| (if (sspi_bit_read_write bus env d
            (decide (wb &&& mtx ≠ 0))).1 then mrx else 0)) <<< 1) % 256)
        (d + 2)
      refine ⟨?_, ?_, ?_, ?_, ?_⟩ <;>
        simp only [gd, h1, h2, h3, h4, g1, g2, g3, g4] <;>
        omega

/-- Helper: one word consumes 2 * word_size delays; its trace holds
2 * word_size delay and write_sck events and word_size write_mosi and
read_miso events. -/
theorem sspi_byte_read_write_counts (bus : Sspi) (env : Nat → Bool) (d wb : Nat) :
    (sspi_byte_read_write bus env d wb).2.2 =
      d + 2 * (norm_word_size bus.word_size).toNat ∧
    (sspi_byte_read_write bus env d wb).2.1.countP isDelay =
      2 * (norm_word_size bus.word_size).toNat ∧
    (sspi_byte_read_write bus env d wb).2.1.countP isSck =
      2 * (norm_word_size bus.word_size).toNat ∧
    (sspi_byte_read_write bus env d wb).2.1.countP isMosi =
      (norm_word_size bus.word_size).toNat ∧
    (sspi_byte_read_write bus env d wb).2.1.countP isMiso =
      (norm_word_size bus.word_size).toNat := by
  rw [sspi_byte_read_write_eq_loop]
  exact sspi_bits_loop_counts bus env _ _ (norm_word_size bus.word_size).toNat
    (wb % 256) 0 d

/-- Helper: the transfer loop over n words consumes 2 * n * word_size delays,
emits the matching event counts, and returns exactly n received bytes. -/
theorem sspi_transfer_loop_counts (bus : Sspi) (env : Nat → Bool)
    (wbuf : Option (Nat → Nat)) :
    ∀ (n i d : Nat),
      (sspi_transfer_loop bus env wbuf i n d).2.2 =
        d + 2 * (n * (norm_word_size bus.word_size).toNat) ∧
      (sspi_transfer_loop bus env wbuf i n d).2.1.countP isDelay =
        2 * (n * (norm_word_size bus.word_size).toNat) ∧
      (sspi_transfer_loop bus env wbuf i n d).2.1.countP isSck =
        2 * (n * (norm_word_size bus.word_size).toNat) ∧
      (sspi_transfer_loop bus env wbuf i n d).2.1.countP isMosi =
        n * (norm_word_size bus.word_size).toNat ∧
      (sspi_transfer_loop bus env wbuf i n d).2.1.countP isMiso =
        n * (norm_word_size bus.word_size).toNat ∧
      (sspi_transfer_loop bus env wbuf i n d).1.length = n := by
  intro n
  induction n with
  | zero =>
    intro i d
    simp [sspi_transfer_loop]
  | succ k ih =>
    intro i d
    obtain ⟨hd, h1, h2, h3, h4⟩ := sspi_byte_read_write_counts bus env d
      (txByte wbuf i)
    simp only [sspi_transfer_loop, List.countP_append, List.length_cons, hd]
    obtain ⟨gd, g1, g2, g3, g4, g5⟩ := ih (i + 1)
      (d + 2 * (norm_word_size bus.word_size).toNat)
    have hsm : (k + 1) * (norm_word_size bus.word_size).toNat =
        k * (norm_word_size bus.word_size).toNat +
          (norm_word_size bus.word_size).toNat := by
      ring
    refine ⟨?_, ?_, ?_, ?_, ?_, ?_⟩
    · rw [gd, hsm]
      omega
    · rw [h1, g1, hsm]
      omega
    · rw [h2, g2, hsm]
      omega
    · rw [h3, g3, hsm]
      omega
    · rw [h4, g4, hsm]
      omega
    · rw [g5]

/-- C6: for every bus configuration with normalized word size w, every line
environment, both read-buffer settings, every write buffer and every length
n, sspi_read_write drives exactly n * w bit-clock cycles through the injected
callbacks — n * w read_miso samples and 2 * n * w write_sck edges — makes
exactly 2 * n * w wait-half-period calls, advances the delay counter by
exactly 2 * n * w, and always runs to completion with a full result: with a
read buffer present the stored list has length exactly n. -/
theorem sspi_read_write_counts (bus : Sspi) (env : Nat → Bool) (rp : Bool)
    (wbuf : Option (Nat → Nat)) (n d : Nat) :
    (sspi_read_write bus env rp wbuf n d).2.1.countP isMiso =
      n * (norm_word_size bus.word_size).toNat ∧
    (sspi_read_write bus env rp wbuf n d).2.1.countP isSck =
      2 * (n * (norm_word_size bus.word_size).toNat) ∧
    (sspi_read_write bus env rp wbuf n d).2.1.countP isDelay =
      2 * (n * (norm_word_size bus.word_size).toNat) ∧
    (sspi_read_write bus env rp wbuf n d).2.2 =
      d + 2 * (n * (norm_word_size bus.word_size).toNat) ∧
    (sspi_read_write bus env true wbuf n d).1 =
      some (sspi_transfer_loop bus env wbuf 0 n d).1 ∧
    (sspi_transfer_loop bus env wbuf 0 n d).1.length = n := by
  obtain ⟨gd, g1, g2, g3, g4, g5⟩ := sspi_transfer_loop_counts bus env wbuf n 0 d
  exact ⟨g4, g2, g1, gd, rfl, g5⟩

/-- C7: for every bus configuration, line environment, write buffer and
length, the run with the read buffer absent and the run with it present
produce the same callback activity — the same full event trace and delay
count, hence in particular the same sequence of write_sck and write_mosi
(clock and data-out) invocations — and the absent-read-buffer run stores
nothing: its output is none. -/
theorem sspi_read_write_read_buffer_independence (bus : Sspi) (env : Nat → Bool)
    (wbuf : Option (Nat → Nat)) (n d : Nat) :
    (sspi_read_write bus env false wbuf n d).2 =
      (sspi_read_write bus env true wbuf n d).2 ∧
    outputEvents (sspi_read_write bus env false wbuf n d).2.1 =
      outputEvents (sspi_read_write bus env true wbuf n d).2.1 ∧
    (sspi_read_write bus env false wbuf n d).1 = none :=
  ⟨rfl, rfl, rfl⟩

/-- Helper: the received bytes of the transfer loop in closed form: the j-th
byte is the word transfer started at delay count d + 2 * j * word_size with
the j-th transmit byte. -/
theorem sspi_transfer_loop_map (bus : Sspi) (env : Nat → Bool)
    (wbuf : Option (Nat → Nat)) :
    ∀ (n i d : Nat),
      (sspi_transfer_loop bus env wbuf i n d).1 =
        (List.range n).map fun j =>
          (sspi_byte_read_write bus env
            (d + 2 * (j * (norm_word_size bus.word_size).toNat))
            (txByte wbuf (i + j))).1 := by
  intro n
  induction n with
  | zero =>
    intro i d
    simp [sspi_transfer_loop]
  | succ k ih =>
    intro i d
    obtain ⟨hd, _, _, _, _⟩ := sspi_byte_read_write_counts bus env d (txByte wbuf i)
    simp only [sspi_transfer_loop, hd]
    rw [ih (i + 1) (d + 2 * (norm_word_size bus.word_size).toNat)]
    rw [List.range_succ_eq_map, List.map_cons, List.map_map]
    have harg : d + 2 * (0 * (norm_word_size bus.word_size).toNat) = d := by omega
    rw [harg]
    have hfun :
        ((fun j =>
            (sspi_byte_read_write bus env
              (d + 2 * (j * (norm_word_size bus.word_size).toNat))
              (txByte wbuf (i + j))).1) ∘ (· + 1)) =
          fun j =>
            (sspi_byte_read_write bus env
              (d + 2 * (norm_word_size bus.word_size).toNat +
                2 * (j * (norm_word_size bus.word_size).toNat))
              (txByte wbuf (i + 1 + j))).1 := by
      funext j
      have e1 : d + 2 * ((j + 1) * (norm_word_size bus.word_size).toNat) =
          d + 2 * (norm_word_size bus.word_size).toNat +
            2 * (j * (norm_word_size bus.word_size).toNat) := by
        ring
      have e2 : i + (j + 1) = i + 1 + j := by omega
      simp only [Function.comp_apply, e1, e2]
    rw [hfun]
    simp

/-- Helper: a NULL write buffer behaves exactly as a buffer of 0x00 bytes. -/
theorem sspi_transfer_loop_none_zero (bus : Sspi) (env : Nat → Bool) :
    ∀ (n i d : Nat),
      sspi_transfer_loop bus env none i n d =
        sspi_transfer_loop bus env (some fun _ => 0) i n d := by
  intro n
  induction n with
  | zero =>
    intro i d
    rfl
  | succ k ih =>
    intro i d
    simp only [sspi_transfer_loop, txByte]
    rw [ih (i + 1)]

/-- C5: for every bus configuration, line environment, write buffer and
length n, sspi_read_write iterates exactly n times: with a read buffer
present it stores, for each j below n, at position j the byte produced by one
word transfer of the j-th write byte — the next write-buffer byte when the
buffer is present and 0x00 when it is NULL — each word composed exactly once,
in order; with the read buffer absent nothing is stored; and a transfer with
a NULL write buffer behaves exactly as one transmitting all-zero words. -/
theorem sspi_read_write_iteration (bus : Sspi) (env : Nat → Bool)
    (wbuf : Option (Nat → Nat)) (n d : Nat) :
    (sspi_read_write bus env true wbuf n d).1 =
      some ((List.range n).map fun j =>
        (sspi_byte_read_write bus env
          (d + 2 * (j * (norm_word_size bus.word_size).toNat))
          (txByte wbuf j)).1) ∧
    (sspi_read_write bus env false wbuf n d).1 = none ∧
    (∀ rp : Bool,
      sspi_read_write bus env rp none n d =
        sspi_read_write bus env rp (some fun _ => 0) n d) := by
  refine ⟨?_, rfl, ?_⟩
  · show some (sspi_transfer_loop bus env wbuf 0 n d).1 = _
    rw [sspi_transfer_loop_map bus env wbuf n 0 d]
    simp
  · intro rp
    unfold sspi_read_write
    rw [sspi_transfer_loop_none_zero bus env n 0 d]

/-- One iteration of the word composer as the specification words it (spec
section 4.2 step 3), on an accumulator (write register, read accumulator,
trace, delay count) and the current bit index: test the transmit mask against
the remaining write byte, clock the bit, OR the returned bit shifted into the
receive mask position, then shift the working registers by one position in
the order's direction — except after the final bit index, where no shift
occurs. -/
def spec_word_step (bus : Sspi) (env : Nat → Bool) (mask_tx mask_rx w : Nat)
    (acc : Nat × Nat × List Ev × Nat) (bit : Nat) : Nat × Nat × List Ev × Nat :=
  let step := sspi_bit_read_write bus env acc.2.2.2 (decide (acc.1 &&& mask_tx ≠ 0))
  let rb1 := acc.2.1 ||| (if step.1 then mask_rx else 0)
  if bit < w - 1 then
    (if bus.lsb then acc.1 >>> 1 else (acc.1 <<< 1) % 256,
      if bus.lsb then rb1 >>> 1 else (rb1 <<< 1) % 256,
      acc.2.2.1 ++ step.2.1, step.2.2)
  else
    (acc.1, rb1, acc.2.2.1 ++ step.2.1, step.2.2)

/-- Specification-side description of the word composer (spec section 4.2):
normalize the word size; MSB-first order uses transmit mask
1 << (word_size - 1) (written as the power 2 ^ (word_size - 1)) with the
receive bit aligned into the same position and left shifts; LSB-first order
uses transmit mask 0x01, receive mask 2 ^ (word_size - 1) and right shifts;
each of the word_size bit indices is processed once, shifting after every bit
except the last. -/
def spec_transfer_word (bus : Sspi) (env : Nat → Bool) (d : Nat) (write_byte : Nat) :
    Nat × List Ev × Nat :=
  let w := (norm_word_size bus.word_size).toNat
  let mask_tx : Nat := if bus.lsb then 1 else 2 ^ (w - 1)
  let mask_rx : Nat := if bus.lsb then 2 ^ (w - 1) else 1
  let final := (List.range w).foldl (spec_word_step bus env mask_tx mask_rx w)
    (write_byte % 256, 0, [], d)
  (final.2.1, final.2.2.1, final.2.2.2)

/-- Helper: the specification's indexed fold coincides with the code's
fuel-counting bit loop, for any window of bit indices ending at the word
size. -/
theorem spec_fold_eq_bits_loop (bus : Sspi) (env : Nat → Bool) (mtx mrx w : Nat) :
    ∀ (n i wb rb : Nat) (tr : List Ev) (d : Nat), i + n = w →
      ((List.range' i n).foldl (spec_word_step bus env mtx mrx w)
          (wb, rb, tr, d)).2 =
        ((sspi_bits_loop bus env mtx mrx n wb rb d).1,
          tr ++ (sspi_bits_loop bus env mtx mrx n wb rb d).2.1,
          (sspi_bits_loop bus env mtx mrx n wb rb d).2.2) := by
  intro n
  induction n with
  | zero =>
    intro i wb rb tr d h
    simp [sspi_bits_loop_zero]
  | succ k ih =>
    intro i wb rb tr d h
    rw [List.range'_succ, List.foldl_cons]
    cases k with
    | zero =>
      have hbit : ¬ i < w - 1 := by omega
      simp only [List.range'_zero, List.foldl_nil, spec_word_step, if_neg hbit,
        Nat.zero_add, sspi_bits_loop_one]
    | succ m =>
      have hbit : i < w - 1 := by omega
      simp only [spec_word_step, if_pos hbit]
      rw [ih (i + 1) _ _ _ _ (by omega)]
      rw [sspi_bits_loop_succ_succ]
      simp only [List.append_assoc]

/-- C3: for every bus configuration, line environment, delay count and write
byte, sspi_byte_read_write coincides with the specification's description of
the word composer: with normalized word size w, MSB-first uses transmit mask
1 << (w-1) with the incoming bit aligned into the same position w-1 and the
word shifting left after each bit except the last, LSB-first uses transmit
mask 0x01 with the receive mask aligning the incoming bit at the top position
1 << (w-1) and both accumulators shifting right after each bit except the
last. -/
theorem sspi_byte_read_write_eq_spec_transfer_word (bus : Sspi) (env : Nat → Bool)
    (d wb : Nat) :
    sspi_byte_read_write bus env d wb = spec_transfer_word bus env d wb := by
  rw [sspi_byte_read_write_eq_loop]
  simp only [spec_transfer_word]
  rw [List.range_eq_range']
  rw [spec_fold_eq_bits_loop bus env
    (if bus.lsb then 1 else 2 ^ ((norm_word_size bus.word_size).toNat - 1))
    (if bus.lsb then 2 ^ ((norm_word_size bus.word_size).toNat - 1) else 1)
    (norm_word_size bus.word_size).toNat
    (norm_word_size bus.word_size).toNat 0 (wb % 256) 0 [] d (by omega)]
  simp

/-- Helper: bit-loop unfolding at fuel at least 2 for MSB order (left
shifts). -/
theorem sspi_bits_loop_succ_succ_msb (bus : Sspi) (hlsb : bus.lsb = false)
    (env : Nat → Bool) (mtx mrx k wb rb d : Nat) :
    sspi_bits_loop bus env mtx mrx (k + 2) wb rb d =
      (let step := sspi_bit_read_write bus env d (decide (wb &&& mtx ≠ 0))
       let rb1 := rb ||| (if step.1 then mrx else 0)
       let rest := sspi_bits_loop bus env mtx mrx (k + 1) ((wb <<< 1) % 256)
         ((rb1 <<< 1) % 256) step.2.2
       (rest.1, step.2.1 ++ rest.2.1, rest.2.2)) := by
  rw [sspi_bits_loop_succ_succ]
  simp [hlsb]

/-- Helper: bit-loop unfolding at fuel at least 2 for LSB order (right
shifts). -/
theorem sspi_bits_loop_succ_succ_lsb (bus : Sspi) (hlsb : bus.lsb = true)
    (env : Nat → Bool) (mtx mrx k wb rb d : Nat) :
    sspi_bits_loop bus env mtx mrx (k + 2) wb rb d =
      (let step := sspi_bit_read_write bus env d (decide (wb &&& mtx ≠ 0))
       let rb1 := rb ||| (if step.1 then mrx else 0)
       let rest := sspi_bits_loop bus env mtx mrx (k + 1) (wb >>> 1)
         (rb1 >>> 1) step.2.2
       (rest.1, step.2.1 ++ rest.2.1, rest.2.2)) := by
  rw [sspi_bits_loop_succ_succ]
  simp [hlsb]

/-- Helper: with the MSB transmit mask 2 ^ (w - 1) and left shifts, the bit
loop depends on the write register only through its low w bits (w in
[1, 8]). -/
theorem sspi_bits_loop_msb_lowbits (bus : Sspi) (hlsb : bus.lsb = false)
    (env : Nat → Bool) (w mrx : Nat) (h1 : 1 ≤ w) (h8 : w ≤ 8) :
    ∀ (n wb wb' rb d : Nat), wb % 2 ^ w = wb' % 2 ^ w →
      sspi_bits_loop bus env (2 ^ (w - 1)) mrx n wb rb d =
        sspi_bits_loop bus env (2 ^ (w - 1)) mrx n wb' rb d := by
  intro n
  induction n with
  | zero =>
    intro wb wb' rb d h
    rfl
  | succ k ih =>
    intro wb wb' rb d h
    have hlt : w - 1 < w := by omega
    have hbit : wb.testBit (w - 1) = wb'.testBit (w - 1) := by
      have e1 : (wb % 2 ^ w).testBit (w - 1) = wb.testBit (w - 1) := by
        rw [Nat.testBit_mod_two_pow]
        simp [hlt]
      have e2 : (wb' % 2 ^ w).testBit (w - 1) = wb'.testBit (w - 1) := by
        rw [Nat.testBit_mod_two_pow]
        simp [hlt]
      rw [← e1, ← e2, h]
    have htest : wb &&& 2 ^ (w - 1) = wb' &&& 2 ^ (w - 1) := by
      rw [Nat.and_two_pow, Nat.and_two_pow, hbit]
    have hdvd : (2 : Nat) ^ w ∣ 256 := by
      have h256 : (256 : Nat) = 2 ^ 8 := by norm_num
      rw [h256]
      exact pow_dvd_pow 2 h8
    have hshift : ((wb <<< 1) % 256) % 2 ^ w = ((wb' <<< 1) % 256) % 2 ^ w := by
      rw [Nat.shiftLeft_eq, Nat.shiftLeft_eq, Nat.mod_mod_of_dvd _ hdvd,
        Nat.mod_mod_of_dvd _ hdvd, pow_one, Nat.mul_mod, h, ← Nat.mul_mod]
    cases k with
    | zero =>
      rw [sspi_bits_loop_one, sspi_bits_loop_one, htest]
    | succ m =>
      simp only [sspi_bits_loop_succ_succ_msb bus hlsb env]
      rw [htest, ih _ _ _ _ hshift]

/-- Helper: with the LSB transmit mask 0x01 and right shifts, the bit loop at
fuel n depends on the write register only through its low n bits. -/
theorem sspi_bits_loop_lsb_lowbits (bus : Sspi) (hlsb : bus.lsb = true)
    (env : Nat → Bool) (mrx : Nat) :
    ∀ (n wb wb' rb d : Nat), wb % 2 ^ n = wb' % 2 ^ n →
      sspi_bits_loop bus env 1 mrx n wb rb d =
        sspi_bits_loop bus env 1 mrx n wb' rb d := by
  intro n
  induction n with
  | zero =>
    intro wb wb' rb d h
    rfl
  | succ k ih =>
    intro wb wb' rb d h
    have hbit0 : wb &&& 1 = wb' &&& 1 := by
      have hdvd : (2 : Nat) ∣ 2 ^ (k + 1) := dvd_pow_self 2 (by omega)
      rw [Nat.and_one_is_mod, Nat.and_one_is_mod, ← Nat.mod_mod_of_dvd wb hdvd,
        ← Nat.mod_mod_of_dvd wb' hdvd, h]
    have hshift : (wb >>> 1) % 2 ^ k = (wb' >>> 1) % 2 ^ k := by
      have e : ∀ x : Nat, (x >>> 1) % 2 ^ k = x % 2 ^ (k + 1) / 2 := by
        intro x
        rw [Nat.shiftRight_eq_div_pow, pow_one, pow_succ, mul_comm ((2 : Nat) ^ k) 2,
          Nat.mod_mul_right_div_self]
      rw [e, e, h]
    cases k with
    | zero =>
      rw [sspi_bits_loop_one, sspi_bits_loop_one, hbit0]
    | succ m =>
      simp only [sspi_bits_loop_succ_succ_lsb bus hlsb env]
      rw [hbit0, ih _ _ _ _ hshift]

/-- Helper: with MSB receive mask 0x01 and left shifts, starting below 2 ^ m
with m at least 1, the accumulated read register after n + 1 bits stays below
2 ^ (m + n). -/
theorem sspi_bits_loop_msb_bound (bus : Sspi) (hlsb : bus.lsb = false)
    (env : Nat → Bool) (mtx : Nat) :
    ∀ (n m wb rb d : Nat), 1 ≤ m → m + n ≤ 8 → rb < 2 ^ m →
      (sspi_bits_loop bus env mtx 1 (n + 1) wb rb d).1 < 2 ^ (m + n) := by
  intro n
  induction n with
  | zero =>
    intro m wb rb d hm _ hrb
    rw [sspi_bits_loop_one]
    have h2 : (2 : Nat) ≤ 2 ^ m := by
      have := Nat.pow_le_pow_right (show 0 < 2 by norm_num) hm
      simpa using this
    have hb : (if (sspi_bit_read_write bus env d
        (decide (wb &&& mtx ≠ 0))).1 then 1 else 0) < 2 ^ m := by
      split <;> omega
    simpa using Nat.or_lt_two_pow hrb hb
  | succ k ih =>
    intro m wb rb d hm hm8 hrb
    have hstep : k + 1 + 1 = k + 2 := rfl
    rw [hstep, sspi_bits_loop_succ_succ_msb bus hlsb env]
    simp only []
    have h2 : (2 : Nat) ≤ 2 ^ m := by
      have := Nat.pow_le_pow_right (show 0 < 2 by norm_num) hm
      simpa using this
    have hb : (if (sspi_bit_read_write bus env d
        (decide (wb &&& mtx ≠ 0))).1 then 1 else 0) < 2 ^ m := by
      split <;> omega
    have hrb1 : rb ||| (if (sspi_bit_read_write bus env d
        (decide (wb &&& mtx ≠ 0))).1 then 1 else 0) < 2 ^ m :=
      Nat.or_lt_two_pow hrb hb
    have hrb2 : ((rb ||| (if (sspi_bit_read_write bus env d
        (decide (wb &&& mtx ≠ 0))).1 then 1 else 0)) <<< 1) % 256 < 2 ^ (m + 1) := by
      have hle : ((rb ||| (if (sspi_bit_read_write bus env d
          (decide (wb &&& mtx ≠ 0))).1 then 1 else 0)) <<< 1) % 256 ≤
          (rb ||| (if (sspi_bit_read_write bus env d
            (decide (wb &&& mtx ≠ 0))).1 then 1 else 0)) <<< 1 := Nat.mod_le _ _
      have hsh : (rb ||| (if (sspi_bit_read_write bus env d
          (decide (wb &&& mtx ≠ 0))).1 then 1 else 0)) <<< 1 =
          (rb ||| (if (sspi_bit_read_write bus env d
            (decide (wb &&& mtx ≠ 0))).1 then 1 else 0)) * 2 := by
        rw [Nat.shiftLeft_eq, pow_one]
      have hpow : (2 : Nat) ^ (m + 1) = 2 ^ m * 2 := by
        rw [pow_succ]
      omega
    have hres := ih (m + 1) ((wb <<< 1) % 256)
      (((rb ||| (if (sspi_bit_read_write bus env d
        (decide (wb &&& mtx ≠ 0))).1 then 1 else 0)) <<< 1) % 256)
      (sspi_bit_read_write bus env d (decide (wb &&& mtx ≠ 0))).2.2
      (by omega) (by omega) hrb2
    have hexp : m + 1 + k = m + (k + 1) := by omega
    rw [hexp] at hres
    exact hres

/-- Helper: with LSB receive mask 2 ^ (w - 1) and right shifts, the read
register stays below 2 ^ w throughout. -/
theorem sspi_bits_loop_lsb_bound (bus : Sspi) (hlsb : bus.lsb = true)
    (env : Nat → Bool) (mtx w : Nat) (hw : 1 ≤ w) :
    ∀ (n wb rb d : Nat), rb < 2 ^ w →
      (sspi_bits_loop bus env mtx (2 ^ (w - 1)) n wb rb d).1 < 2 ^ w := by
  intro n
  induction n with
  | zero =>
    intro wb rb d h
    exact h
  | succ k ih =>
    intro wb rb d h
    have hmlt : (2 : Nat) ^ (w - 1) < 2 ^ w := Nat.pow_lt_pow_right (by norm_num) (by omega)
    have hb : (if (sspi_bit_read_write bus env d
        (decide (wb &&& mtx ≠ 0))).1 then 2 ^ (w - 1) else 0) < 2 ^ w := by
      split <;> omega
    have hrb1 : rb ||| (if (sspi_bit_read_write bus env d
        (decide (wb &&& mtx ≠ 0))).1 then 2 ^ (w - 1) else 0) < 2 ^ w :=
      Nat.or_lt_two_pow h hb
    cases k with
    | zero =>
      rw [sspi_bits_loop_one]
      exact hrb1
    | succ m =>
      simp only [sspi_bits_loop_succ_succ_lsb bus hlsb env]
      apply ih
      have hdiv : (rb ||| (if (sspi_bit_read_write bus env d
          (decide (wb &&& mtx ≠ 0))).1 then 2 ^ (w - 1) else 0)) >>> 1 ≤
          rb ||| (if (sspi_bit_read_write bus env d
            (decide (wb &&& mtx ≠ 0))).1 then 2 ^ (w - 1) else 0) := by
        rw [Nat.shiftRight_eq_div_pow, pow_one]
        exact Nat.div_le_self _ _
      omega

/-- Helper: with word size w in [1, 8], the word transfer gives equal results
(value and trace) on write bytes agreeing on their low w bits. -/
theorem sspi_byte_read_write_low_bits_aux (bus : Sspi) (w : Nat)
    (hws : bus.word_size = (w : Int)) (h1 : 1 ≤ w) (h8 : w ≤ 8)
    (env : Nat → Bool) (d wb wb' : Nat) (h : wb % 2 ^ w = wb' % 2 ^ w) :
    sspi_byte_read_write bus env d wb = sspi_byte_read_write bus env d wb' := by
  rw [sspi_byte_read_write_eq_loop, sspi_byte_read_write_eq_loop]
  have hn : (norm_word_size bus.word_size).toNat = w := by
    rw [hws]
    exact norm_word_size_toNat_of_range w h1 h8
  rw [hn]
  have hdvd : (2 : Nat) ^ w ∣ 256 := by
    have h256 : (256 : Nat) = 2 ^ 8 := by norm_num
    rw [h256]
    exact pow_dvd_pow 2 h8
  have hmod : wb % 256 % 2 ^ w = wb' % 256 % 2 ^ w := by
    rw [Nat.mod_mod_of_dvd _ hdvd, Nat.mod_mod_of_dvd _ hdvd, h]
  cases hlsb : bus.lsb with
  | false =>
    simp only [hlsb, Bool.false_eq_true, if_false]
    exact sspi_bits_loop_msb_lowbits bus hlsb env w 1 h1 h8 w _ _ 0 d hmod
  | true =>
    simp only [hlsb, if_true]
    have hmod' : wb % 256 % 2 ^ w = wb' % 256 % 2 ^ w := hmod
    exact sspi_bits_loop_lsb_lowbits bus hlsb env (2 ^ (w - 1)) w _ _ 0 d hmod'

/-- Helper: with word size w in [1, 8], the byte returned by the word
transfer has all bits at positions at least w equal to zero. -/
theorem sspi_byte_read_write_lt_aux (bus : Sspi) (w : Nat)
    (hws : bus.word_size = (w : Int)) (h1 : 1 ≤ w) (h8 : w ≤ 8)
    (env : Nat → Bool) (d wb : Nat) :
    (sspi_byte_read_write bus env d wb).1 < 2 ^ w := by
  rw [sspi_byte_read_write_eq_loop]
  have hn : (norm_word_size bus.word_size).toNat = w := by
    rw [hws]
    exact norm_word_size_toNat_of_range w h1 h8
  rw [hn]
  cases hlsb : bus.lsb with
  | false =>
    simp only [hlsb, Bool.false_eq_true, if_false]
    obtain ⟨w', rfl⟩ : ∃ w', w = w' + 1 := ⟨w - 1, by omega⟩
    have hres := sspi_bits_loop_msb_bound bus hlsb env (2 ^ (w' + 1 - 1)) w' 1
      (wb % 256) 0 d (by omega) (by omega) (by norm_num)
    have hexp : 1 + w' = w' + 1 := by omega
    rw [hexp] at hres
    exact hres
  | true =>
    simp only [hlsb, if_true]
    exact sspi_bits_loop_lsb_bound bus hlsb env 1 w h1 w (wb % 256) 0 d (by norm_num)

/-- Helper: two-word unfolding of the transfer loop. -/
theorem sspi_transfer_loop_two (bus : Sspi) (env : Nat → Bool)
    (wbuf : Option (Nat → Nat)) (i d : Nat) :
    sspi_transfer_loop bus env wbuf i 2 d =
      ([(sspi_byte_read_write bus env d (txByte wbuf i)).1,
          (sspi_byte_read_write bus env
            (sspi_byte_read_write bus env d (txByte wbuf i)).2.2
            (txByte wbuf (i + 1))).1],
        (sspi_byte_read_write bus env d (txByte wbuf i)).2.1 ++
          ((sspi_byte_read_write bus env
            (sspi_byte_read_write bus env d (txByte wbuf i)).2.2
            (txByte wbuf (i + 1))).2.1 ++ []),
        (sspi_byte_read_write bus env
          (sspi_byte_read_write bus env d (txByte wbuf i)).2.2
          (txByte wbuf (i + 1))).2.2) := rfl

/-- Helper: the word-size-5 MSB-first instance of the truncation property on
the two-byte transfer 0x87, 0x5A against 0x07, 0x1A. -/
theorem sspi_word5_truncation_aux (bus : Sspi) (hws : bus.word_size = 5)
    (env : Nat → Bool) (d : Nat) (rp : Bool) :
    sspi_read_write bus env rp (some fun i => List.getD [135, 90] i 0) 2 d =
      sspi_read_write bus env rp (some fun i => List.getD [7, 26] i 0) 2 d := by
  have hws5 : bus.word_size = ((5 : Nat) : Int) := by
    rw [hws]
    rfl
  have e1 : sspi_byte_read_write bus env d 135 = sspi_byte_read_write bus env d 7 :=
    sspi_byte_read_write_low_bits_aux bus 5 hws5 (by norm_num) (by norm_num)
      env d 135 7 (by norm_num)
  have e2 : ∀ d' : Nat,
      sspi_byte_read_write bus env d' 90 = sspi_byte_read_write bus env d' 26 :=
    fun d' => sspi_byte_read_write_low_bits_aux bus 5 hws5 (by norm_num) (by norm_num)
      env d' 90 26 (by norm_num)
  unfold sspi_read_write
  rw [sspi_transfer_loop_two, sspi_transfer_loop_two]
  simp only [txByte, List.getD_cons_zero, List.getD_cons_succ]
  rw [e1, e2]

/-- C4: for every bus configuration whose word_size is w in [1, 8], every
line environment and delay count, the result of sspi_byte_read_write
(returned byte and callback trace alike) depends on the write byte only
through its low w bits, and the returned byte has all bits at positions at
least w equal to zero; in particular with word_size 5 writing the bytes
0x87, 0x5A behaves identically to writing 0x07, 0x1A. -/
theorem sspi_byte_read_write_low_bits (bus : Sspi) (w : Nat) (env : Nat → Bool)
    (d wb wb' : Nat) (hws : bus.word_size = (w : Int)) (h1 : 1 ≤ w) (h8 : w ≤ 8) :
    (wb % 2 ^ w = wb' % 2 ^ w →
      sspi_byte_read_write bus env d wb = sspi_byte_read_write bus env d wb') ∧
    (sspi_byte_read_write bus env d wb).1 < 2 ^ w ∧
    (∀ rp : Bool, bus.word_size = 5 →
      sspi_read_write bus env rp (some fun i => List.getD [135, 90] i 0) 2 d =
        sspi_read_write bus env rp (some fun i => List.getD [7, 26] i 0) 2 d) :=
  ⟨sspi_byte_read_write_low_bits_aux bus w hws h1 h8 env d wb wb',
    sspi_byte_read_write_lt_aux bus w hws h1 h8 env d wb,
    fun rp h5 => sspi_word5_truncation_aux bus h5 env d rp⟩

/-- Witness for C4 on a concrete MSB-first word-size-5 bus with the write
bytes 0x87 (low five bits 0x07) and 0x07. -/
theorem sspi_byte_read_write_low_bits_witness :
    (135 % 2 ^ 5 = 7 % 2 ^ 5 →
      sspi_byte_read_write ⟨false, false, false, 5⟩ (fun _ => false) 0 135 =
        sspi_byte_read_write ⟨false, false, false, 5⟩ (fun _ => false) 0 7) ∧
    (sspi_byte_read_write ⟨false, false, false, 5⟩ (fun _ => false) 0 135).1 < 2 ^ 5 ∧
    (∀ rp : Bool, (⟨false, false, false, 5⟩ : Sspi).word_size = 5 →
      sspi_read_write ⟨false, false, false, 5⟩ (fun _ => false) rp
          (some fun i => List.getD [135, 90] i 0) 2 0 =
        sspi_read_write ⟨false, false, false, 5⟩ (fun _ => false) rp
          (some fun i => List.getD [7, 26] i 0) 2 0) :=
  sspi_byte_read_write_low_bits ⟨false, false, false, 5⟩ 5 (fun _ => false) 0 135 7
    (by decide) (by decide) (by decide)
